import Mathlib

/-!
Verification of `src/process_results.py`.

The file shallowly embeds the two functions of the module,
`consolidate_jsons_to_mega_json` and `process_mega_json_for_no_complete_prompt`,
and proves or refutes the specified properties about them.

Modelling conventions:
* Python dictionaries are insertion-ordered association lists (`Dict`).
* Python floats are modelled as exact rationals; the value `math.exp x`
  is represented symbolically by the table cell `Cell.exp x`, and the
  lemma `cell_exp_denotes` relates that symbol to the real exponential.
* Raisable Python errors are the `PyErr` inductive, and fallible code
  returns `Except PyErr`.
* `pathlib.Path.glob` returns a one-shot generator object; `len` applied
  to a generator raises `TypeError`.  This is modelled by `PyIterable`
  and `pyLen`.
* The JSON load/save helpers and the progress bar are external
  collaborators: the flattener receives the already-deserialized list of
  records, the consolidator receives the list of matching file names and
  an abstract per-file loader, and the content written to the
  destination path is returned explicitly (`ConsolidateOutcome.written`).
-/

namespace ProcessResults

/-- Python runtime errors raised by the embedded code. -/
inductive PyErr where
  | typeError
  | keyError
  | indexError
  | valueError
  | exception
  deriving DecidableEq, Repr

instance {ε α : Type} [DecidableEq ε] [DecidableEq α] : DecidableEq (Except ε α) := fun a b =>
  match a, b with
  | Except.ok x, Except.ok y =>
      if h : x = y then Decidable.isTrue (congrArg Except.ok h)
      else Decidable.isFalse (fun hh => h (by injection hh))
  | Except.error x, Except.error y =>
      if h : x = y then Decidable.isTrue (congrArg Except.error h)
      else Decidable.isFalse (fun hh => h (by injection hh))
  | Except.ok _, Except.error _ => Decidable.isFalse (fun hh => by injection hh)
  | Except.error _, Except.ok _ => Decidable.isFalse (fun hh => by injection hh)

/-- Python iterables relevant to the consolidator: `pathlib.Path.glob`
returns a one-shot generator object, not a list. -/
inductive PyIterable (α : Type) where
  | list (xs : List α)
  | generator (xs : List α)

/-- Python `len`: defined on lists, raises `TypeError` on generator objects. -/
def pyLen {α : Type} : PyIterable α → Except PyErr Nat
  | PyIterable.list xs => Except.ok xs.length
  | PyIterable.generator _ => Except.error PyErr.typeError

/-- Lines 28-30 of the source: load every file in turn, appending the
contents to the in-memory list; a failing load aborts the loop. -/
def loadAll {J : Type} (load_json : String → Except PyErr J) :
    List String → Except PyErr (List J)
  | [] => Except.ok []
  | f :: fs => do
      let contents ← load_json f
      let rest ← loadAll load_json fs
      pure (contents :: rest)

/-- Observable outcome of one call of the consolidator: the content
written to `save_file_path` (if the save was reached) and the returned
value or uncaught error. -/
structure ConsolidateOutcome (J : Type) where
  written : Option (List J)
  ret : Except PyErr Nat
  deriving DecidableEq

/-- Embedding of `consolidate_jsons_to_mega_json` (lines 11-35).
The argument `files` is the sequence of paths matched by the recursive
glob pattern, and `load_json` is the external deserializer.
Line 24 binds the glob generator; line 26 interpolates
`len(list_of_data_files)` into a printed message; lines 28-30 load the
files; line 33 saves the collected list; line 35 returns
`len(list_of_data_files)` again. -/
def consolidate_jsons_to_mega_json {J : Type} (files : List String)
    (load_json : String → Except PyErr J) : ConsolidateOutcome J :=
  let list_of_data_files := PyIterable.generator files
  match pyLen list_of_data_files with
  | Except.error e => { written := none, ret := Except.error e }
  | Except.ok _ =>
      match loadAll load_json files with
      | Except.error e => { written := none, ret := Except.error e }
      | Except.ok mega =>
          match pyLen list_of_data_files with
          | Except.error e => { written := some mega, ret := Except.error e }
          | Except.ok n => { written := some mega, ret := Except.ok n }

/-- C3: the specification states that for a directory with N matching
files the consolidator returns N and writes an archive with exactly the
N deserialized contents.  The code instead applies `len` to the
generator returned by `pathlib.Path.glob` (line 26, inside the printed
message), which raises `TypeError` on every input before a single file
is read, so no count is ever returned and no archive is ever written. -/
theorem C3_consolidate_always_typeerror {J : Type} (files : List String)
    (load_json : String → Except PyErr J) :
    (consolidate_jsons_to_mega_json files load_json).ret = Except.error PyErr.typeError ∧
    (consolidate_jsons_to_mega_json files load_json).written = none :=
  ⟨rfl, rfl⟩

/-- C7: the specification states that a failing per-file load propagates
to the caller and that no archive is written.  In the code no load is
ever attempted: the `len` call on the glob generator raises `TypeError`
first, so the propagated error is `TypeError` rather than the
deserialization error; nothing is written to the destination path in
either account. -/
theorem C7_no_archive_on_failing_load {J : Type} (files : List String)
    (load_json : String → Except PyErr J)
    (h : ∃ f ∈ files, ∃ e, load_json f = Except.error e) :
    (consolidate_jsons_to_mega_json files load_json).written = none ∧
    (consolidate_jsons_to_mega_json files load_json).ret = Except.error PyErr.typeError :=
  ⟨rfl, rfl⟩

/-- Concrete instance of `C7_no_archive_on_failing_load`: one malformed
file whose load raises `ValueError`. -/
theorem C7_witness :
    (∃ f ∈ ["bad.json"], ∃ e,
      (fun _ => (Except.error PyErr.valueError : Except PyErr Nat)) f = Except.error e) ∧
    (consolidate_jsons_to_mega_json ["bad.json"]
      (fun _ => (Except.error PyErr.valueError : Except PyErr Nat))).written = none := by
  have hex : ∃ f ∈ ["bad.json"], ∃ e,
      (fun _ => (Except.error PyErr.valueError : Except PyErr Nat)) f = Except.error e :=
    ⟨"bad.json", by simp, PyErr.valueError, rfl⟩
  exact ⟨hex, (C7_no_archive_on_failing_load ["bad.json"] _ hex).1⟩

/-- Value stored in one cell of the flattened table (and as a prompt
fill value).  `Cell.exp x` stands for the float `math.exp x`. -/
inductive Cell where
  | str (s : String)
  | int (n : Int)
  | exp (x : ℚ)
  deriving DecidableEq, Repr

/-- The symbolic cell `Cell.exp` denotes the real exponential: two such
cells are equal exactly when the denoted probabilities are equal. -/
theorem cell_exp_denotes (a b : ℚ) :
    Cell.exp a = Cell.exp b ↔ Real.exp (a : ℝ) = Real.exp (b : ℝ) := by
  constructor
  · intro h
    injection h with h
    rw [h]
  · intro h
    have : (a : ℝ) = (b : ℝ) := Real.exp_injective h
    exact congrArg Cell.exp (by exact_mod_cast this)

/-- Insertion-ordered association list modelling a Python dictionary. -/
abbrev Dict (α : Type) := List (String × α)

/-- Python dictionary lookup `d[k]` as an `Option` (first match). -/
def dictGet {α : Type} (d : Dict α) (k : String) : Option α :=
  match d with
  | [] => none
  | p :: rest => if p.1 == k then some p.2 else dictGet rest k

/-- Python dictionary assignment `d[k] = v`: replaces the value in place
when the key is present, otherwise appends the key at the end. -/
def dictSet {α : Type} (d : Dict α) (k : String) (v : α) : Dict α :=
  match d with
  | [] => [(k, v)]
  | p :: rest => if p.1 == k then (k, v) :: rest else p :: dictSet rest k v

/-- Python `d[k].append(v)` on a dictionary of lists: raises `KeyError`
when the key is absent. -/
def dictAppend {β : Type} (d : Dict (List β)) (k : String) (v : β) :
    Except PyErr (Dict (List β)) :=
  match d with
  | [] => Except.error PyErr.keyError
  | p :: rest =>
      if p.1 == k then Except.ok ((p.1, p.2 ++ [v]) :: rest)
      else (dictAppend rest k v).map (fun rest1 => p :: rest1)

/-- Token-level log-probability trace of one model response:
parallel sequences `tokens`, `token_logprobs`, `text_offset`. -/
structure Logprobs where
  tokens : List String
  token_logprobs : List ℚ
  text_offset : List Int
  deriving DecidableEq, Repr

/-- One element of `output.choices`. -/
structure Choice where
  logprobs : Logprobs
  deriving DecidableEq, Repr

/-- Value assigned to `res["output"]["echo_logprobs"]`: line 108 stores
the whole `choice["logprobs"]` dictionary, line 116 stores a fresh
two-key dictionary holding the sliced sequences. -/
inductive EchoLogprobs where
  | full (lp : Logprobs)
  | sliced (tokens : List String) (token_logprobs : List ℚ)
  deriving DecidableEq, Repr

/-- The `tokens` entry of `echo_logprobs`. -/
def EchoLogprobs.tokens : EchoLogprobs → List String
  | EchoLogprobs.full lp => lp.tokens
  | EchoLogprobs.sliced ts _ => ts

/-- The `token_logprobs` entry of `echo_logprobs`. -/
def EchoLogprobs.token_logprobs : EchoLogprobs → List ℚ
  | EchoLogprobs.full lp => lp.token_logprobs
  | EchoLogprobs.sliced _ ls => ls

/-- The `output` component of a result record.  The `echo_logprobs`
field is absent (`none`) in deserialized records and is written by the
flattener at lines 108 and 116. -/
structure OutputPart where
  choices : List Choice
  echo_logprobs : Option EchoLogprobs
  deriving DecidableEq, Repr

/-- The `model` component of a result record. -/
structure ModelPart where
  engine : String
  echo : Bool
  max_tokens : Int
  deriving DecidableEq, Repr

/-- The `input.prompt` component: trial index and template fill values. -/
structure Prompt where
  index : Int
  values : Dict Cell
  deriving DecidableEq, Repr

/-- The `input` component of a result record. -/
structure InputPart where
  prompt : Prompt
  prompt_descriptor : String
  full_input : String
  deriving DecidableEq, Repr

/-- One deserialized result record of the archive. -/
structure ResultRecord where
  input : InputPart
  model : ModelPart
  output : OutputPart
  deriving DecidableEq, Repr

/-- Python `xs[-i]` for `i ≥ 1` (as used in the tail loop at lines
127-128): the element at position `len - i`, `IndexError` out of range. -/
def pyNegIndex {α : Type} (xs : List α) (i : Nat) : Except PyErr α :=
  if h : 1 ≤ i ∧ i ≤ xs.length then
    Except.ok (xs.get ⟨xs.length - i, by omega⟩)
  else Except.error PyErr.indexError

/-- One iteration of the loop at lines 126-128: append `tokens[-i]` to
the collected list and add `token_logprobs[-i]` to the running sum. -/
def tailStep (tokens : List String) (lps : List ℚ) (acc : List String × ℚ)
    (i : Nat) : Except PyErr (List String × ℚ) := do
  let t ← pyNegIndex tokens i
  let lp ← pyNegIndex lps i
  pure (acc.1 ++ [t], acc.2 + lp)

/-- The loop at lines 126-128: `i` ranges over `1, ..., T`. -/
def tailLoop (tokens : List String) (lps : List ℚ) (T : Nat) :
    Except PyErr (List String × ℚ) :=
  (List.range' 1 T).foldlM (tailStep tokens lps) ([], 0)

/-- Lines 122-131: run the tail loop on the echoed logprobs, reverse the
collected tokens, join them with a dash and exponentiate the sum. -/
def tailCells (T : Nat) (elp : EchoLogprobs) : Except PyErr (Cell × Cell) := do
  let (tokens_list, logprob_sum) ← tailLoop elp.tokens elp.token_logprobs T
  pure (Cell.str (String.intercalate "-" tokens_list.reverse), Cell.exp logprob_sum)

/-- Lines 104-119: pick `choices[0]` and compute the value stored into
`res["output"]["echo_logprobs"]`.  With `max_tokens == 0` this is the
whole `logprobs` mapping; otherwise the sequences are truncated at the
first position of `len(full_input)` inside `text_offset`, raising
`ValueError` when that length is absent. -/
def computeEchoLogprobs (res : ResultRecord) : Except PyErr EchoLogprobs :=
  match res.output.choices with
  | [] => Except.error PyErr.indexError
  | choice :: _ =>
      if res.model.max_tokens = 0 then
        Except.ok (EchoLogprobs.full choice.logprobs)
      else
        let len_input : Int := res.input.full_input.length
        match choice.logprobs.text_offset.findIdx? (fun x => x == len_input) with
        | some slicer =>
            Except.ok (EchoLogprobs.sliced (choice.logprobs.tokens.take slicer)
              (choice.logprobs.token_logprobs.take slicer))
        | none => Except.error PyErr.valueError

/-- Lines 99-131 without the table bookkeeping: the completion cells
computed for one record (echo check, branch on `max_tokens`, tail loop). -/
def completionResult (T : Nat) (res : ResultRecord) : Except PyErr (Cell × Cell) :=
  match res.model.echo with
  | false => Except.error PyErr.exception
  | true => do
      let elp ← computeEchoLogprobs res
      tailCells T elp

/-- The in-place mutation at lines 108 and 116. -/
def setEchoLogprobs (res : ResultRecord) (elp : EchoLogprobs) : ResultRecord :=
  { res with output := { res.output with echo_logprobs := some elp } }

/-- Mutable state of the flattening loop: the `results` dictionary and
the flag set after the fill fields of the first processed record were
added as columns. -/
structure FlatState where
  results : Dict (List Cell)
  added_prompt_fill_fields : Bool
  deriving DecidableEq

/-- Lines 89-92: add every fill key as a fresh empty column. -/
def initFields (vals : Dict Cell) (d : Dict (List Cell)) : Dict (List Cell) :=
  vals.foldl (fun acc kv => dictSet acc kv.1 []) d

/-- Lines 95-96: append every fill value to its column, `KeyError` when
a column is missing. -/
def appendValues (vals : Dict Cell) (d : Dict (List Cell)) :
    Except PyErr (Dict (List Cell)) :=
  vals.foldlM (fun acc kv => dictAppend acc kv.1 kv.2) d

/-- Lines 83-131: processing of one record that passed the filter.
Returns the updated loop state together with the (mutated) record. -/
def processRecord (T : Nat) (st : FlatState) (res : ResultRecord) :
    Except PyErr (FlatState × ResultRecord) := do
  let d1 ← dictAppend st.results "index" (Cell.int res.input.prompt.index)
  let d2 ← dictAppend d1 "engine" (Cell.str res.model.engine)
  let (d3, added) :=
    match st.added_prompt_fill_fields with
    | false => (initFields res.input.prompt.values d2, true)
    | true => (d2, true)
  let d4 ← appendValues res.input.prompt.values d3
  match res.model.echo with
  | false => Except.error PyErr.exception
  | true => do
      let elp ← computeEchoLogprobs res
      let res1 := setEchoLogprobs res elp
      let cells ← tailCells T elp
      let d5 ← dictAppend d4 "tokens" cells.1
      let d6 ← dictAppend d5 "probability" cells.2
      Except.ok ({ results := d6, added_prompt_fill_fields := added }, res1)

/-- Lines 78-81: a record is retained unless the filter is set and the
prompt descriptor differs from it. -/
def keep (f? : Option String) (res : ResultRecord) : Bool :=
  match f? with
  | none => true
  | some f => res.input.prompt_descriptor == f

/-- One iteration of the loop at line 75: skip or process the record,
collecting the possibly mutated record. -/
def flattenStep (T : Nat) (f? : Option String)
    (acc : FlatState × List ResultRecord) (res : ResultRecord) :
    Except PyErr (FlatState × List ResultRecord) :=
  match keep f? res with
  | false => Except.ok (acc.1, acc.2 ++ [res])
  | true => do
      let (st1, res1) ← processRecord T acc.1 res
      Except.ok (st1, acc.2 ++ [res1])

/-- Line 69: the initial `results` dictionary. -/
def initResults : Dict (List Cell) :=
  [("index", []), ("engine", []), ("tokens", []), ("probability", [])]

/-- The length check performed by the `pandas.DataFrame` constructor at
line 133: all columns must have the same number of entries. -/
def allSameLength (d : Dict (List Cell)) : Bool :=
  match d with
  | [] => true
  | p :: rest => rest.all (fun q => q.2.length == p.2.length)

/-- External table builder (line 133): the flat table is the final
`results` dictionary itself; ragged column lengths raise `ValueError`. -/
def pdDataFrame (d : Dict (List Cell)) : Except PyErr (Dict (List Cell)) :=
  match allSameLength d with
  | true => Except.ok d
  | false => Except.error PyErr.valueError

/-- Embedding of `process_mega_json_for_no_complete_prompt`
(lines 38-135).  The archive is received already deserialized.  The
result is the flattened table (as the final column dictionary) together
with the post-run contents of the record list, which the loop mutates
in place. -/
def process_mega_json_for_no_complete_prompt (mega : List ResultRecord)
    (completion_is_last_n_tokens_of_echoed_prompt : Nat)
    (filter_by_prompt_descriptor : Option String) :
    Except PyErr (Dict (List Cell) × List ResultRecord) := do
  let (st, recs) ← mega.foldlM
    (flattenStep completion_is_last_n_tokens_of_echoed_prompt filter_by_prompt_descriptor)
    ({ results := initResults, added_prompt_fill_fields := false }, [])
  let df_results ← pdDataFrame st.results
  Except.ok (df_results, recs)

/-- The four columns present in `results` from line 69 on. -/
def reservedKeys : List String := ["index", "engine", "tokens", "probability"]

/-- The fill keys of a record avoid the four fixed column names.  This
is the schema shape assumed by the data model of the specification
(section 3: the fill columns come in addition to the fixed four). -/
def valuesDisjoint (vals : Dict Cell) : Prop :=
  ∀ kv ∈ vals, kv.1 ∉ reservedKeys

instance (vals : Dict Cell) : Decidable (valuesDisjoint vals) :=
  List.decidableBAll _ vals

/-- Well-formed fill mapping: key set disjoint from the fixed columns
and without duplicates (a Python dictionary cannot repeat keys). -/
def WFValues (vals : Dict Cell) : Prop :=
  valuesDisjoint vals ∧ (vals.map Prod.fst).Nodup

instance (vals : Dict Cell) : Decidable (WFValues vals) :=
  inferInstanceAs (Decidable (valuesDisjoint vals ∧ (vals.map Prod.fst).Nodup))

/-- Column names of the table, in order. -/
def colKeys {α : Type} (d : Dict α) : List String := d.map Prod.fst

/-- The last `T` entries of a list, in forward order. -/
def lastN {α : Type} (T : Nat) (xs : List α) : List α := xs.drop (xs.length - T)

/-- The pair of cells appended for one retained record, as a total
function (meaningful whenever `completionResult` succeeds). -/
def keptCells (T : Nat) (r : ResultRecord) : Cell × Cell :=
  match completionResult T r with
  | Except.ok c => c
  | Except.error _ => (Cell.str "", Cell.exp 0)

/-- State of one record after a completed flattening run: retained
records received the `echo_logprobs` entry, skipped ones are untouched. -/
def postRecord (f? : Option String) (r : ResultRecord) : ResultRecord :=
  match keep f? r with
  | false => r
  | true =>
      match computeEchoLogprobs r with
      | Except.ok elp => setEchoLogprobs r elp
      | Except.error _ => r

/-- The `logprobs` of the first choice of a record (dummy empty trace
when `choices` is empty; every successful run rules the dummy out). -/
def logprobsOf (r : ResultRecord) : Logprobs :=
  match r.output.choices with
  | [] => { tokens := [], token_logprobs := [], text_offset := [] }
  | c :: _ => c.logprobs

/-- A record identical to `r` except that the token and log-probability
sequences of its first choice are truncated to the entries before
position `slicer`. -/
def pretruncateRecord (slicer : Nat) (r : ResultRecord) : ResultRecord :=
  match r.output.choices with
  | [] => r
  | c :: cs =>
      { r with output := { r.output with choices :=
          { c with logprobs := { c.logprobs with
              tokens := c.logprobs.tokens.take slicer,
              token_logprobs := c.logprobs.token_logprobs.take slicer } } :: cs } }

/-- A record with the scratch `echo_logprobs` entry removed. -/
def scrubEchoLogprobs (r : ResultRecord) : ResultRecord :=
  { r with output := { r.output with echo_logprobs := none } }

/-! Helper lemmas about `Except`. -/

theorem except_bind_ok {ε α β : Type} (x : Except ε α) (f : α → Except ε β) (b : β)
    (h : x >>= f = Except.ok b) : ∃ a, x = Except.ok a ∧ f a = Except.ok b := by
  cases x with
  | ok a => exact ⟨a, rfl, h⟩
  | error e => exact absurd h (by simp [Bind.bind, Except.bind])

theorem except_ok_bind {ε α β : Type} (a : α) (f : α → Except ε β) :
    (Except.ok a >>= f) = f a := rfl

theorem except_error_bind {ε α β : Type} (e : ε) (f : α → Except ε β) :
    (Except.error e >>= f) = Except.error e := rfl

theorem except_pure_eq_ok {ε α : Type} (a : α) :
    (pure a : Except ε α) = Except.ok a := rfl

theorem except_map_ok {ε α β : Type} (x : Except ε α) (f : α → β) (b : β)
    (h : x.map f = Except.ok b) : ∃ a, x = Except.ok a ∧ f a = b := by
  cases x with
  | ok a =>
      refine ⟨a, rfl, ?_⟩
      simpa [Except.map] using h
  | error e => exact absurd h (by simp [Except.map])

/-! Helper lemmas about the dictionary operations. -/

theorem dictGet_dictAppend_self {β : Type} (d : Dict (List β)) (k : String) (v : β)
    (d1 : Dict (List β)) (L : List β) (h : dictAppend d k v = Except.ok d1)
    (hget : dictGet d k = some L) : dictGet d1 k = some (L ++ [v]) := by
  induction d generalizing d1 with
  | nil => simp [dictAppend] at h
  | cons p rest ih =>
      by_cases hk : p.1 = k
      · simp [dictAppend, hk] at h
        simp [dictGet, hk] at hget
        subst hget
        simp [← h, dictGet, hk]
      · simp [dictAppend, hk] at h
        obtain ⟨rest1, hrest, hd1⟩ := except_map_ok _ _ _ h
        simp [dictGet, hk] at hget
        simp [← hd1, dictGet, hk]
        exact ih rest1 hrest hget

theorem dictGet_dictAppend_ne {β : Type} (d : Dict (List β)) (k : String) (v : β)
    (d1 : Dict (List β)) (h : dictAppend d k v = Except.ok d1)
    (k' : String) (hne : k' ≠ k) : dictGet d1 k' = dictGet d k' := by
  induction d generalizing d1 with
  | nil => simp [dictAppend] at h
  | cons p rest ih =>
      by_cases hk : p.1 = k
      · simp [dictAppend, hk] at h
        subst hk
        simp [← h, dictGet, Ne.symm hne]
      · simp [dictAppend, hk] at h
        obtain ⟨rest1, hrest, hd1⟩ := except_map_ok _ _ _ h
        by_cases hk' : p.1 = k'
        · simp [← hd1, dictGet, hk']
        · simp [← hd1, dictGet, hk', ih rest1 hrest]

theorem dictAppend_colKeys {β : Type} (d : Dict (List β)) (k : String) (v : β)
    (d1 : Dict (List β)) (h : dictAppend d k v = Except.ok d1) :
    colKeys d1 = colKeys d := by
  induction d generalizing d1 with
  | nil => simp [dictAppend] at h
  | cons p rest ih =>
      by_cases hk : p.1 = k
      · simp [dictAppend, hk] at h
        simp [← h, colKeys, hk]
      · simp [dictAppend, hk] at h
        obtain ⟨rest1, hrest, hd1⟩ := except_map_ok _ _ _ h
        have := ih rest1 hrest
        simp [colKeys] at this
        simp [← hd1, colKeys, this]

theorem dictGet_dictSet_ne {α : Type} (d : Dict α) (k : String) (v : α)
    (k' : String) (hne : k' ≠ k) : dictGet (dictSet d k v) k' = dictGet d k' := by
  induction d with
  | nil => simp [dictSet, dictGet, Ne.symm hne]
  | cons p rest ih =>
      by_cases hk : p.1 = k
      · subst hk
        simp [dictSet, dictGet, Ne.symm hne]
      · by_cases hk' : p.1 = k'
        · simp [dictSet, hk, dictGet, hk', hne]
        · simp [dictSet, hk, dictGet, hk', ih]

theorem dictSet_colKeys_fresh {α : Type} (d : Dict α) (k : String) (v : α)
    (h : k ∉ d.map Prod.fst) : (dictSet d k v).map Prod.fst = d.map Prod.fst ++ [k] := by
  induction d with
  | nil => simp [dictSet]
  | cons p rest ih =>
      simp only [List.map_cons, List.mem_cons, not_or] at h
      have hk : p.1 ≠ k := fun hh => h.1 hh.symm
      simp [dictSet, hk]
      exact ih h.2

theorem dictGet_initFields (vals : Dict Cell) (d : Dict (List Cell)) (k : String)
    (h : k ∉ vals.map Prod.fst) : dictGet (initFields vals d) k = dictGet d k := by
  induction vals generalizing d with
  | nil => simp [initFields]
  | cons kv rest ih =>
      simp only [List.map_cons, List.mem_cons, not_or] at h
      have step : initFields (kv :: rest) d = initFields rest (dictSet d kv.1 []) := rfl
      rw [step, ih (dictSet d kv.1 []) h.2, dictGet_dictSet_ne]
      exact h.1

theorem initFields_colKeys (vals : Dict Cell) (d : Dict (List Cell))
    (hnd : (vals.map Prod.fst).Nodup)
    (hdis : ∀ k ∈ vals.map Prod.fst, k ∉ d.map Prod.fst) :
    (initFields vals d).map Prod.fst = d.map Prod.fst ++ vals.map Prod.fst := by
  induction vals generalizing d with
  | nil => simp [initFields]
  | cons kv rest ih =>
      have step : initFields (kv :: rest) d = initFields rest (dictSet d kv.1 []) := rfl
      simp only [List.map_cons, List.nodup_cons] at hnd
      have hfresh : kv.1 ∉ d.map Prod.fst := hdis kv.1 (by simp)
      rw [step, ih (dictSet d kv.1 []) hnd.2]
      · rw [dictSet_colKeys_fresh d kv.1 [] hfresh]
        simp
      · intro k hk
        rw [dictSet_colKeys_fresh d kv.1 [] hfresh]
        simp only [List.mem_append, List.mem_singleton, not_or]
        constructor
        · exact hdis k (by simp [hk])
        · intro hh
          rw [hh] at hk
          exact hnd.1 hk

theorem appendValues_get_ne (vals : Dict Cell) (d d1 : Dict (List Cell))
    (h : appendValues vals d = Except.ok d1) (k : String)
    (hk : k ∉ vals.map Prod.fst) : dictGet d1 k = dictGet d k := by
  induction vals generalizing d with
  | nil =>
      simp only [appendValues, List.foldlM] at h
      have hd : d = d1 := by injection h
      rw [hd]
  | cons kv rest ih =>
      have step : appendValues (kv :: rest) d
          = dictAppend d kv.1 kv.2 >>= (fun d2 => appendValues rest d2) := rfl
      rw [step] at h
      obtain ⟨d2, hd2, hrest⟩ := except_bind_ok _ _ _ h
      simp only [List.map_cons, List.mem_cons, not_or] at hk
      rw [ih d2 hrest hk.2]
      exact dictGet_dictAppend_ne d kv.1 kv.2 d2 hd2 k hk.1

theorem appendValues_colKeys (vals : Dict Cell) (d d1 : Dict (List Cell))
    (h : appendValues vals d = Except.ok d1) : colKeys d1 = colKeys d := by
  induction vals generalizing d with
  | nil =>
      simp only [appendValues, List.foldlM] at h
      have hd : d = d1 := by injection h
      rw [hd]
  | cons kv rest ih =>
      have step : appendValues (kv :: rest) d
          = dictAppend d kv.1 kv.2 >>= (fun d2 => appendValues rest d2) := rfl
      rw [step] at h
      obtain ⟨d2, hd2, hrest⟩ := except_bind_ok _ _ _ h
      rw [ih d2 hrest]
      exact dictAppend_colKeys d kv.1 kv.2 d2 hd2

/-! Helper lemmas about the tail-selection loop (lines 122-131). -/

theorem pyNegIndex_ok {α : Type} (xs : List α) (i : Nat) (h1 : 1 ≤ i) (h2 : i ≤ xs.length) :
    pyNegIndex xs i = Except.ok (xs.get ⟨xs.length - i, by omega⟩) := by
  rw [pyNegIndex, dif_pos ⟨h1, h2⟩]

theorem pyNegIndex_err {α : Type} (xs : List α) (i : Nat) (h : xs.length < i) :
    pyNegIndex xs i = Except.error PyErr.indexError := by
  rw [pyNegIndex, dif_neg]
  intro hc
  omega

theorem range'_one_concat (T : Nat) :
    List.range' 1 (T + 1) = List.range' 1 T ++ [T + 1] := by
  rw [List.range'_concat]
  simp [Nat.add_comm]

theorem tailLoop_succ (tokens : List String) (lps : List ℚ) (T : Nat) :
    tailLoop tokens lps (T + 1)
      = tailLoop tokens lps T >>= (fun acc => tailStep tokens lps acc (T + 1)) := by
  unfold tailLoop
  rw [range'_one_concat, List.foldlM_append]
  congr 1
  funext acc
  show List.foldlM (tailStep tokens lps) acc [T + 1]
      = tailStep tokens lps acc (T + 1)
  show (tailStep tokens lps acc (T + 1) >>= fun b => pure b)
      = tailStep tokens lps acc (T + 1)
  rw [bind_pure]

theorem tailLoop_ok (tokens : List String) (lps : List ℚ) (T : Nat)
    (ht : T ≤ tokens.length) (hl : T ≤ lps.length) :
    tailLoop tokens lps T =
      Except.ok ((tokens.drop (tokens.length - T)).reverse,
        (lps.drop (lps.length - T)).sum) := by
  induction T with
  | zero =>
      have h0 : tailLoop tokens lps 0 = Except.ok ([], 0) := rfl
      rw [h0]
      simp [List.drop_length]
  | succ T ih =>
      rw [tailLoop_succ, ih (by omega) (by omega)]
      show tailStep tokens lps _ (T + 1) = _
      have hnt : tokens.length - (T + 1) < tokens.length := by omega
      have hnl : lps.length - (T + 1) < lps.length := by omega
      have het : tokens.length - (T + 1) + 1 = tokens.length - T := by omega
      have hel : lps.length - (T + 1) + 1 = lps.length - T := by omega
      have htok : tokens.drop (tokens.length - (T + 1))
          = tokens.get ⟨tokens.length - (T + 1), hnt⟩ :: tokens.drop (tokens.length - T) := by
        rw [@List.drop_eq_get_cons String _ tokens hnt, het]
      have hlp : lps.drop (lps.length - (T + 1))
          = lps.get ⟨lps.length - (T + 1), hnl⟩ :: lps.drop (lps.length - T) := by
        rw [@List.drop_eq_get_cons ℚ _ lps hnl, hel]
      rw [tailStep, pyNegIndex_ok tokens (T + 1) (by omega) (by omega),
        pyNegIndex_ok lps (T + 1) (by omega) (by omega)]
      show Except.ok (_, _) = _
      rw [htok, hlp]
      simp [Rat.add_comm]

theorem tailLoop_err (tokens : List String) (lps : List ℚ) (T : Nat)
    (h : tokens.length < T ∨ lps.length < T) :
    tailLoop tokens lps T = Except.error PyErr.indexError := by
  induction T with
  | zero => rcases h with h | h <;> exact absurd h (by omega)
  | succ T ih =>
      rw [tailLoop_succ]
      by_cases hcase : tokens.length < T ∨ lps.length < T
      · rw [ih hcase]
        rfl
      · push_neg at hcase
        rw [tailLoop_ok tokens lps T (by omega) (by omega)]
        show tailStep tokens lps _ (T + 1) = _
        rcases Nat.lt_or_ge tokens.length (T + 1) with htok | htok
        · rw [tailStep, pyNegIndex_err tokens (T + 1) htok]
          rfl
        · have hlp : lps.length < T + 1 := by omega
          rw [tailStep, pyNegIndex_ok tokens (T + 1) (by omega) (by omega),
            pyNegIndex_err lps (T + 1) hlp]
          rfl

theorem tailLoop_ok_lengths (tokens : List String) (lps : List ℚ) (T : Nat)
    (v : List String × ℚ) (h : tailLoop tokens lps T = Except.ok v) :
    T ≤ tokens.length ∧ T ≤ lps.length := by
  rcases Nat.lt_or_ge tokens.length T with ht | ht
  · rw [tailLoop_err tokens lps T (Or.inl ht)] at h
    exact absurd h (by simp)
  rcases Nat.lt_or_ge lps.length T with hl | hl
  · rw [tailLoop_err tokens lps T (Or.inr hl)] at h
    exact absurd h (by simp)
  exact ⟨ht, hl⟩

theorem tailCells_ok (T : Nat) (elp : EchoLogprobs)
    (ht : T ≤ elp.tokens.length) (hl : T ≤ elp.token_logprobs.length) :
    tailCells T elp = Except.ok
      (Cell.str (String.intercalate "-" (lastN T elp.tokens)),
       Cell.exp ((lastN T elp.token_logprobs).sum)) := by
  unfold tailCells
  rw [tailLoop_ok _ _ _ ht hl]
  show Except.ok (_, _) = _
  rw [List.reverse_reverse]
  rfl

theorem tailCells_ok_lengths (T : Nat) (elp : EchoLogprobs) (c : Cell × Cell)
    (h : tailCells T elp = Except.ok c) :
    T ≤ elp.tokens.length ∧ T ≤ elp.token_logprobs.length := by
  unfold tailCells at h
  obtain ⟨v, hv, _⟩ := except_bind_ok _ _ _ h
  exact tailLoop_ok_lengths _ _ _ v hv

theorem valuesDisjoint_not_mem (vals : Dict Cell) (h : valuesDisjoint vals)
    (k : String) (hk : k ∈ reservedKeys) : k ∉ vals.map Prod.fst := by
  intro hmem
  obtain ⟨kv, hkv, hfst⟩ := List.mem_map.mp hmem
  exact h kv hkv (hfst ▸ hk)

/-- Unfolding of `completionResult` on the happy path. -/
theorem completionResult_eq (T : Nat) (res : ResultRecord) (elp : EchoLogprobs)
    (cells : Cell × Cell) (hecho : res.model.echo = true)
    (help : computeEchoLogprobs res = Except.ok elp)
    (hcells : tailCells T elp = Except.ok cells) :
    completionResult T res = Except.ok cells := by
  unfold completionResult
  rw [hecho]
  show (computeEchoLogprobs res >>= fun elp => tailCells T elp) = Except.ok cells
  rw [help]
  exact hcells

/-- Everything a successful `processRecord` step guarantees: the record
passed the echo check, the echo logprobs and the two completion cells
were computed, the record was mutated by exactly the `echo_logprobs`
assignment, the first-record flag is set afterwards, and (for fill keys
avoiding the four fixed columns) each fixed column grew by exactly its
cell while the column name list grew exactly on the first record. -/
theorem processRecord_ok (T : Nat) (st : FlatState) (res : ResultRecord)
    (st' : FlatState) (res' : ResultRecord)
    (h : processRecord T st res = Except.ok (st', res')) :
    ∃ elp cells,
      computeEchoLogprobs res = Except.ok elp ∧
      res.model.echo = true ∧
      tailCells T elp = Except.ok cells ∧
      res' = setEchoLogprobs res elp ∧
      st'.added_prompt_fill_fields = true ∧
      (valuesDisjoint res.input.prompt.values →
        (∀ L, dictGet st.results "index" = some L →
          dictGet st'.results "index" = some (L ++ [Cell.int res.input.prompt.index])) ∧
        (∀ L, dictGet st.results "engine" = some L →
          dictGet st'.results "engine" = some (L ++ [Cell.str res.model.engine])) ∧
        (∀ L, dictGet st.results "tokens" = some L →
          dictGet st'.results "tokens" = some (L ++ [cells.1])) ∧
        (∀ L, dictGet st.results "probability" = some L →
          dictGet st'.results "probability" = some (L ++ [cells.2]))) ∧
      (st.added_prompt_fill_fields = true → colKeys st'.results = colKeys st.results) ∧
      (st.added_prompt_fill_fields = false → WFValues res.input.prompt.values →
        (∀ k ∈ res.input.prompt.values.map Prod.fst, k ∉ colKeys st.results) →
        colKeys st'.results = colKeys st.results ++ res.input.prompt.values.map Prod.fst) := by
  cases hflag : st.added_prompt_fill_fields with
  | false =>
      unfold processRecord at h
      rw [hflag] at h
      obtain ⟨d1, hd1, h⟩ := except_bind_ok _ _ _ h
      obtain ⟨d2, hd2, h⟩ := except_bind_ok _ _ _ h
      obtain ⟨d4, hd4, h⟩ := except_bind_ok _ _ _ h
      rcases hb : res.model.echo with _ | _
      · rw [hb] at h
        exact Except.noConfusion h
      rw [hb] at h
      obtain ⟨elp, help, h⟩ := except_bind_ok _ _ _ h
      obtain ⟨cells, hcells, h⟩ := except_bind_ok _ _ _ h
      obtain ⟨d5, hd5, h⟩ := except_bind_ok _ _ _ h
      obtain ⟨d6, hd6, h⟩ := except_bind_ok _ _ _ h
      rw [Except.ok.injEq, Prod.mk.injEq] at h
      obtain ⟨hst', hres'⟩ := h
      refine ⟨elp, cells, help, rfl, hcells, hres'.symm, ?_, ?_, ?_, ?_⟩
      · rw [← hst']
      · intro hdis
        have hni : "index" ∉ res.input.prompt.values.map Prod.fst :=
          valuesDisjoint_not_mem _ hdis _ (by simp [reservedKeys])
        have hne : "engine" ∉ res.input.prompt.values.map Prod.fst :=
          valuesDisjoint_not_mem _ hdis _ (by simp [reservedKeys])
        have hnt : "tokens" ∉ res.input.prompt.values.map Prod.fst :=
          valuesDisjoint_not_mem _ hdis _ (by simp [reservedKeys])
        have hnp : "probability" ∉ res.input.prompt.values.map Prod.fst :=
          valuesDisjoint_not_mem _ hdis _ (by simp [reservedKeys])
        refine ⟨?_, ?_, ?_, ?_⟩
        · intro L hL
          have s1 := dictGet_dictAppend_self _ _ _ _ _ hd1 hL
          have s2 := dictGet_dictAppend_ne _ _ _ _ hd2 "index" (by decide)
          rw [s1] at s2
          have s3 := dictGet_initFields res.input.prompt.values d2 "index" hni
          rw [s2] at s3
          have s4 := appendValues_get_ne _ _ _ hd4 "index" hni
          rw [s3] at s4
          have s5 := dictGet_dictAppend_ne _ _ _ _ hd5 "index" (by decide)
          rw [s4] at s5
          have s6 := dictGet_dictAppend_ne _ _ _ _ hd6 "index" (by decide)
          rw [s5] at s6
          rw [← hst']
          exact s6
        · intro L hL
          have s1 := dictGet_dictAppend_ne _ _ _ _ hd1 "engine" (by decide)
          rw [hL] at s1
          have s2 := dictGet_dictAppend_self _ _ _ _ _ hd2 s1
          have s3 := dictGet_initFields res.input.prompt.values d2 "engine" hne
          rw [s2] at s3
          have s4 := appendValues_get_ne _ _ _ hd4 "engine" hne
          rw [s3] at s4
          have s5 := dictGet_dictAppend_ne _ _ _ _ hd5 "engine" (by decide)
          rw [s4] at s5
          have s6 := dictGet_dictAppend_ne _ _ _ _ hd6 "engine" (by decide)
          rw [s5] at s6
          rw [← hst']
          exact s6
        · intro L hL
          have s1 := dictGet_dictAppend_ne _ _ _ _ hd1 "tokens" (by decide)
          rw [hL] at s1
          have s2 := dictGet_dictAppend_ne _ _ _ _ hd2 "tokens" (by decide)
          rw [s1] at s2
          have s3 := dictGet_initFields res.input.prompt.values d2 "tokens" hnt
          rw [s2] at s3
          have s4 := appendValues_get_ne _ _ _ hd4 "tokens" hnt
          rw [s3] at s4
          have s5 := dictGet_dictAppend_self _ _ _ _ _ hd5 s4
          have s6 := dictGet_dictAppend_ne _ _ _ _ hd6 "tokens" (by decide)
          rw [s5] at s6
          rw [← hst']
          exact s6
        · intro L hL
          have s1 := dictGet_dictAppend_ne _ _ _ _ hd1 "probability" (by decide)
          rw [hL] at s1
          have s2 := dictGet_dictAppend_ne _ _ _ _ hd2 "probability" (by decide)
          rw [s1] at s2
          have s3 := dictGet_initFields res.input.prompt.values d2 "probability" hnp
          rw [s2] at s3
          have s4 := appendValues_get_ne _ _ _ hd4 "probability" hnp
          rw [s3] at s4
          have s5 := dictGet_dictAppend_ne _ _ _ _ hd5 "probability" (by decide)
          rw [s4] at s5
          have s6 := dictGet_dictAppend_self _ _ _ _ _ hd6 s5
          rw [← hst']
          exact s6
      · intro hcontra
        exact absurd hcontra (by simp)
      · intro _ hwf hfresh
        have c1 := dictAppend_colKeys _ _ _ _ hd1
        have c2 := dictAppend_colKeys _ _ _ _ hd2
        have c3 := initFields_colKeys res.input.prompt.values d2 hwf.2
          (by rw [show (d2.map Prod.fst) = colKeys d2 from rfl, c2, c1]; exact hfresh)
        have c4 := appendValues_colKeys _ _ _ hd4
        have c5 := dictAppend_colKeys _ _ _ _ hd5
        have c6 := dictAppend_colKeys _ _ _ _ hd6
        rw [← hst']
        show colKeys d6 = _
        rw [c6, c5, c4, show colKeys (initFields res.input.prompt.values d2)
            = (initFields res.input.prompt.values d2).map Prod.fst from rfl, c3]
        show colKeys d2 ++ _ = _
        rw [c2, c1]
  | true =>
      unfold processRecord at h
      rw [hflag] at h
      obtain ⟨d1, hd1, h⟩ := except_bind_ok _ _ _ h
      obtain ⟨d2, hd2, h⟩ := except_bind_ok _ _ _ h
      obtain ⟨d4, hd4, h⟩ := except_bind_ok _ _ _ h
      rcases hb : res.model.echo with _ | _
      · rw [hb] at h
        exact Except.noConfusion h
      rw [hb] at h
      obtain ⟨elp, help, h⟩ := except_bind_ok _ _ _ h
      obtain ⟨cells, hcells, h⟩ := except_bind_ok _ _ _ h
      obtain ⟨d5, hd5, h⟩ := except_bind_ok _ _ _ h
      obtain ⟨d6, hd6, h⟩ := except_bind_ok _ _ _ h
      rw [Except.ok.injEq, Prod.mk.injEq] at h
      obtain ⟨hst', hres'⟩ := h
      refine ⟨elp, cells, help, rfl, hcells, hres'.symm, ?_, ?_, ?_, ?_⟩
      · rw [← hst']
      · intro hdis
        have hni : "index" ∉ res.input.prompt.values.map Prod.fst :=
          valuesDisjoint_not_mem _ hdis _ (by simp [reservedKeys])
        have hne : "engine" ∉ res.input.prompt.values.map Prod.fst :=
          valuesDisjoint_not_mem _ hdis _ (by simp [reservedKeys])
        have hnt : "tokens" ∉ res.input.prompt.values.map Prod.fst :=
          valuesDisjoint_not_mem _ hdis _ (by simp [reservedKeys])
        have hnp : "probability" ∉ res.input.prompt.values.map Prod.fst :=
          valuesDisjoint_not_mem _ hdis _ (by simp [reservedKeys])
        refine ⟨?_, ?_, ?_, ?_⟩
        · intro L hL
          have s1 := dictGet_dictAppend_self _ _ _ _ _ hd1 hL
          have s2 := dictGet_dictAppend_ne _ _ _ _ hd2 "index" (by decide)
          rw [s1] at s2
          have s4 := appendValues_get_ne _ _ _ hd4 "index" hni
          rw [s2] at s4
          have s5 := dictGet_dictAppend_ne _ _ _ _ hd5 "index" (by decide)
          rw [s4] at s5
          have s6 := dictGet_dictAppend_ne _ _ _ _ hd6 "index" (by decide)
          rw [s5] at s6
          rw [← hst']
          exact s6
        · intro L hL
          have s1 := dictGet_dictAppend_ne _ _ _ _ hd1 "engine" (by decide)
          rw [hL] at s1
          have s2 := dictGet_dictAppend_self _ _ _ _ _ hd2 s1
          have s4 := appendValues_get_ne _ _ _ hd4 "engine" hne
          rw [s2] at s4
          have s5 := dictGet_dictAppend_ne _ _ _ _ hd5 "engine" (by decide)
          rw [s4] at s5
          have s6 := dictGet_dictAppend_ne _ _ _ _ hd6 "engine" (by decide)
          rw [s5] at s6
          rw [← hst']
          exact s6
        · intro L hL
          have s1 := dictGet_dictAppend_ne _ _ _ _ hd1 "tokens" (by decide)
          rw [hL] at s1
          have s2 := dictGet_dictAppend_ne _ _ _ _ hd2 "tokens" (by decide)
          rw [s1] at s2
          have s4 := appendValues_get_ne _ _ _ hd4 "tokens" hnt
          rw [s2] at s4
          have s5 := dictGet_dictAppend_self _ _ _ _ _ hd5 s4
          have s6 := dictGet_dictAppend_ne _ _ _ _ hd6 "tokens" (by decide)
          rw [s5] at s6
          rw [← hst']
          exact s6
        · intro L hL
          have s1 := dictGet_dictAppend_ne _ _ _ _ hd1 "probability" (by decide)
          rw [hL] at s1
          have s2 := dictGet_dictAppend_ne _ _ _ _ hd2 "probability" (by decide)
          rw [s1] at s2
          have s4 := appendValues_get_ne _ _ _ hd4 "probability" hnp
          rw [s2] at s4
          have s5 := dictGet_dictAppend_ne _ _ _ _ hd5 "probability" (by decide)
          rw [s4] at s5
          have s6 := dictGet_dictAppend_self _ _ _ _ _ hd6 s5
          rw [← hst']
          exact s6
      · intro _
        have c1 := dictAppend_colKeys _ _ _ _ hd1
        have c2 := dictAppend_colKeys _ _ _ _ hd2
        have c4 := appendValues_colKeys _ _ _ hd4
        have c5 := dictAppend_colKeys _ _ _ _ hd5
        have c6 := dictAppend_colKeys _ _ _ _ hd6
        rw [← hst']
        show colKeys d6 = _
        rw [c6, c5, c4, c2, c1]
      · intro hcontra
        exact absurd hcontra (by simp)

theorem flattenStep_skip (T : Nat) (f? : Option String)
    (acc : FlatState × List ResultRecord) (res : ResultRecord)
    (h : keep f? res = false) :
    flattenStep T f? acc res = Except.ok (acc.1, acc.2 ++ [res]) := by
  unfold flattenStep
  rw [h]

/-- Induction workhorse for the flattening loop: a successful fold over
the record list forces every retained record to have a successful
completion computation, returns the mutated record list, and (when the
fill keys of retained records avoid the fixed columns) extends the four
fixed columns by exactly one cell per retained record. -/
theorem flatten_fold_ok (T : Nat) (f? : Option String) :
    ∀ (mega : List ResultRecord) (st : FlatState) (recs0 : List ResultRecord)
      (st' : FlatState) (recs' : List ResultRecord),
      List.foldlM (flattenStep T f?) (st, recs0) mega = Except.ok (st', recs') →
      (∀ r ∈ mega, keep f? r = true → ∃ c, completionResult T r = Except.ok c) ∧
      recs' = recs0 ++ mega.map (postRecord f?) ∧
      ((∀ r ∈ mega, keep f? r = true → valuesDisjoint r.input.prompt.values) →
        ∀ I E K P, dictGet st.results "index" = some I →
          dictGet st.results "engine" = some E →
          dictGet st.results "tokens" = some K →
          dictGet st.results "probability" = some P →
          dictGet st'.results "index"
            = some (I ++ (mega.filter (fun r => keep f? r)).map
                (fun r => Cell.int r.input.prompt.index)) ∧
          dictGet st'.results "engine"
            = some (E ++ (mega.filter (fun r => keep f? r)).map
                (fun r => Cell.str r.model.engine)) ∧
          dictGet st'.results "tokens"
            = some (K ++ (mega.filter (fun r => keep f? r)).map
                (fun r => (keptCells T r).1)) ∧
          dictGet st'.results "probability"
            = some (P ++ (mega.filter (fun r => keep f? r)).map
                (fun r => (keptCells T r).2))) := by
  intro mega
  induction mega with
  | nil =>
      intro st recs0 st' recs' h
      have h2 : Except.ok (st, recs0) = Except.ok (st', recs') := h
      rw [Except.ok.injEq, Prod.mk.injEq] at h2
      obtain ⟨hst, hrecs⟩ := h2
      subst hst
      subst hrecs
      refine ⟨by simp, by simp, ?_⟩
      intro _ I E K P hI hE hK hP
      simp [hI, hE, hK, hP]
  | cons r rest ih =>
      intro st recs0 st' recs' h
      have hsplit : List.foldlM (flattenStep T f?) (st, recs0) (r :: rest)
          = flattenStep T f? (st, recs0) r >>= fun acc =>
              List.foldlM (flattenStep T f?) acc rest := rfl
      rw [hsplit] at h
      obtain ⟨acc1, hstep, hrest⟩ := except_bind_ok _ _ _ h
      cases hk : keep f? r with
      | false =>
          rw [flattenStep_skip T f? (st, recs0) r hk] at hstep
          have hstep2 : (st, recs0 ++ [r]) = acc1 := by
            rw [Except.ok.injEq] at hstep
            exact hstep
          rw [← hstep2] at hrest
          obtain ⟨hcomp, hrecs, hcols⟩ := ih st (recs0 ++ [r]) st' recs' hrest
          refine ⟨?_, ?_, ?_⟩
          · intro x hx hkx
            rcases List.mem_cons.mp hx with hx | hx
            · rw [hx] at hkx
              rw [hkx] at hk
              exact absurd hk (by simp)
            · exact hcomp x hx hkx
          · rw [hrecs, List.map_cons]
            have hpost : postRecord f? r = r := by
              unfold postRecord
              rw [hk]
            rw [hpost]
            simp
          · intro hdis I E K P hI hE hK hP
            have hfil : (r :: rest).filter (fun x => keep f? x)
                = rest.filter (fun x => keep f? x) := List.filter_cons_of_neg (by simp [hk])
            rw [hfil]
            exact hcols (fun x hx hkx => hdis x (List.mem_cons_of_mem r hx) hkx) I E K P hI hE hK hP
      | true =>
          unfold flattenStep at hstep
          rw [hk] at hstep
          obtain ⟨pr, hproc, hstep2⟩ := except_bind_ok _ _ _ hstep
          obtain ⟨st1, res1⟩ := pr
          have hstep3 : Except.ok (st1, recs0 ++ [res1]) = Except.ok acc1 := hstep2
          rw [Except.ok.injEq] at hstep3
          rw [← hstep3] at hrest
          obtain ⟨elp, cells, help, hecho, hcells, hres1, _, hdictcols, _, _⟩ :=
            processRecord_ok T st r st1 res1 hproc
          have hcompr : completionResult T r = Except.ok cells :=
            completionResult_eq T r elp cells hecho help hcells
          obtain ⟨hcomp, hrecs, hcols⟩ := ih st1 (recs0 ++ [res1]) st' recs' hrest
          refine ⟨?_, ?_, ?_⟩
          · intro x hx hkx
            rcases List.mem_cons.mp hx with hx | hx
            · rw [hx]
              exact ⟨cells, hcompr⟩
            · exact hcomp x hx hkx
          · rw [hrecs, List.map_cons]
            have hpost : postRecord f? r = res1 := by
              unfold postRecord
              rw [hk, help, hres1]
            rw [hpost]
            simp
          · intro hdis I E K P hI hE hK hP
            have hdisr : valuesDisjoint r.input.prompt.values :=
              hdis r (List.mem_cons_self r rest) hk
            obtain ⟨hcI, hcE, hcK, hcP⟩ := hdictcols hdisr
            have hfil : (r :: rest).filter (fun x => keep f? x)
                = r :: rest.filter (fun x => keep f? x) := List.filter_cons_of_pos hk
            have hkc : keptCells T r = cells := by
              unfold keptCells
              rw [hcompr]
            obtain ⟨hrI, hrE, hrK, hrP⟩ :=
              hcols (fun x hx hkx => hdis x (List.mem_cons_of_mem r hx) hkx)
                (I ++ [Cell.int r.input.prompt.index]) (E ++ [Cell.str r.model.engine])
                (K ++ [cells.1]) (P ++ [cells.2])
                (hcI I hI) (hcE E hE) (hcK K hK) (hcP P hP)
            rw [hfil]
            refine ⟨?_, ?_, ?_, ?_⟩
            · rw [hrI]
              simp
            · rw [hrE]
              simp
            · rw [hrK]
              simp [hkc]
            · rw [hrP]
              simp [hkc]

/-! Destructuring lemmas for the branch at lines 104-119. -/

theorem computeEchoLogprobs_max0 (r : ResultRecord) (c : Choice) (cs : List Choice)
    (hc : r.output.choices = c :: cs) (hmt : r.model.max_tokens = 0) :
    computeEchoLogprobs r = Except.ok (EchoLogprobs.full c.logprobs) := by
  simp only [computeEchoLogprobs, hc]
  rw [if_pos hmt]

theorem computeEchoLogprobs_salvage (r : ResultRecord) (c : Choice) (cs : List Choice)
    (slicer : Nat) (hc : r.output.choices = c :: cs) (hmt : r.model.max_tokens ≠ 0)
    (hidx : c.logprobs.text_offset.findIdx?
      (fun x => x == (r.input.full_input.length : Int)) = some slicer) :
    computeEchoLogprobs r = Except.ok (EchoLogprobs.sliced
      (c.logprobs.tokens.take slicer) (c.logprobs.token_logprobs.take slicer)) := by
  simp only [computeEchoLogprobs, hc]
  rw [if_neg hmt]
  simp only [hidx]

theorem computeEchoLogprobs_notfound (r : ResultRecord) (c : Choice) (cs : List Choice)
    (hc : r.output.choices = c :: cs) (hmt : r.model.max_tokens ≠ 0)
    (hidx : c.logprobs.text_offset.findIdx?
      (fun x => x == (r.input.full_input.length : Int)) = none) :
    computeEchoLogprobs r = Except.error PyErr.valueError := by
  simp only [computeEchoLogprobs, hc]
  rw [if_neg hmt]
  simp only [hidx]

theorem computeEchoLogprobs_ok_choices (r : ResultRecord) (elp : EchoLogprobs)
    (h : computeEchoLogprobs r = Except.ok elp) :
    ∃ c cs, r.output.choices = c :: cs := by
  unfold computeEchoLogprobs at h
  cases hc : r.output.choices with
  | nil =>
      rw [hc] at h
      exact Except.noConfusion h
  | cons c cs => exact ⟨c, cs, rfl⟩

theorem completionResult_ok (T : Nat) (r : ResultRecord) (c : Cell × Cell)
    (h : completionResult T r = Except.ok c) :
    r.model.echo = true ∧
    ∃ elp, computeEchoLogprobs r = Except.ok elp ∧ tailCells T elp = Except.ok c := by
  unfold completionResult at h
  cases hb : r.model.echo
  · rw [hb] at h
    exact Except.noConfusion h
  · rw [hb] at h
    obtain ⟨elp, help, h2⟩ := except_bind_ok _ _ _ h
    exact ⟨rfl, elp, help, h2⟩

theorem pdDataFrame_ok (d d' : Dict (List Cell)) (h : pdDataFrame d = Except.ok d') :
    d' = d ∧ allSameLength d = true := by
  unfold pdDataFrame at h
  cases hall : allSameLength d
  · rw [hall] at h
    exact Except.noConfusion h
  · rw [hall] at h
    have h2 : Except.ok d = Except.ok d' := h
    rw [Except.ok.injEq] at h2
    exact ⟨h2.symm, rfl⟩

/-- Decomposition of a successful flattening call into the loop fold and
the table construction. -/
theorem flatten_ok_destruct (mega : List ResultRecord) (T : Nat) (f? : Option String)
    (df : Dict (List Cell)) (recs : List ResultRecord)
    (h : process_mega_json_for_no_complete_prompt mega T f? = Except.ok (df, recs)) :
    ∃ st, List.foldlM (flattenStep T f?)
        ({ results := initResults, added_prompt_fill_fields := false }, []) mega
        = Except.ok (st, recs) ∧
      df = st.results ∧ allSameLength st.results = true := by
  unfold process_mega_json_for_no_complete_prompt at h
  obtain ⟨acc, hacc, h⟩ := except_bind_ok _ _ _ h
  obtain ⟨st, recs1⟩ := acc
  obtain ⟨df1, hdf1, h⟩ := except_bind_ok _ _ _ h
  have h2 : Except.ok (df1, recs1) = Except.ok (df, recs) := h
  rw [Except.ok.injEq, Prod.mk.injEq] at h2
  obtain ⟨hdf, hrecs⟩ := h2
  obtain ⟨hdfeq, hall⟩ := pdDataFrame_ok _ _ hdf1
  subst hrecs
  refine ⟨st, hacc, ?_, hall⟩
  rw [← hdf, hdfeq]

/-- Combined success facts for one flattening call, specialised to the
initial loop state of line 69. -/
theorem flatten_ok_master (mega : List ResultRecord) (T : Nat) (f? : Option String)
    (df : Dict (List Cell)) (recs : List ResultRecord)
    (h : process_mega_json_for_no_complete_prompt mega T f? = Except.ok (df, recs)) :
    (∀ r ∈ mega, keep f? r = true → ∃ c, completionResult T r = Except.ok c) ∧
    recs = mega.map (postRecord f?) ∧
    ((∀ r ∈ mega, keep f? r = true → valuesDisjoint r.input.prompt.values) →
      dictGet df "index"
        = some ((mega.filter (fun r => keep f? r)).map
            (fun r => Cell.int r.input.prompt.index)) ∧
      dictGet df "engine"
        = some ((mega.filter (fun r => keep f? r)).map
            (fun r => Cell.str r.model.engine)) ∧
      dictGet df "tokens"
        = some ((mega.filter (fun r => keep f? r)).map
            (fun r => (keptCells T r).1)) ∧
      dictGet df "probability"
        = some ((mega.filter (fun r => keep f? r)).map
            (fun r => (keptCells T r).2))) := by
  obtain ⟨st, hfold, hdf, _⟩ := flatten_ok_destruct mega T f? df recs h
  obtain ⟨hcomp, hrecs, hcols⟩ := flatten_fold_ok T f? mega _ _ _ _ hfold
  refine ⟨hcomp, by simpa using hrecs, ?_⟩
  intro hdis
  obtain ⟨hI, hE, hK, hP⟩ := hcols hdis [] [] [] [] rfl rfl rfl rfl
  rw [hdf]
  simpa using ⟨hI, hE, hK, hP⟩

theorem dictGet_mem {α : Type} (d : Dict α) (k : String) (v : α)
    (h : dictGet d k = some v) : ∃ p ∈ d, p.2 = v := by
  induction d with
  | nil => simp [dictGet] at h
  | cons q rest ih =>
      by_cases hq : q.1 = k
      · simp [dictGet, hq] at h
        exact ⟨q, by simp, h⟩
      · simp [dictGet, hq] at h
        obtain ⟨p, hp, hv⟩ := ih h
        exact ⟨p, by simp [hp], hv⟩

theorem allSameLength_eq (d : Dict (List Cell)) (hall : allSameLength d = true)
    (p q : String × List Cell) (hp : p ∈ d) (hq : q ∈ d) :
    p.2.length = q.2.length := by
  cases d with
  | nil => simp at hp
  | cons h0 rest =>
      have hres : ∀ x ∈ rest, x.2.length = h0.2.length := by
        intro x hx
        have := List.all_eq_true.mp hall x hx
        exact eq_of_beq this
      have hplen : p.2.length = h0.2.length := by
        rcases List.mem_cons.mp hp with hp | hp
        · rw [hp]
        · exact hres p hp
      have hqlen : q.2.length = h0.2.length := by
        rcases List.mem_cons.mp hq with hq | hq
        · rw [hq]
        · exact hres q hq
      rw [hplen, hqlen]

/-- A prefix of records that all fail the filter leaves the loop state
untouched and only copies the records through. -/
theorem fold_skips (T : Nat) (f? : Option String) :
    ∀ (pre : List ResultRecord) (st : FlatState) (recs0 : List ResultRecord),
      (∀ x ∈ pre, keep f? x = false) →
      List.foldlM (flattenStep T f?) (st, recs0) pre = Except.ok (st, recs0 ++ pre) := by
  intro pre
  induction pre with
  | nil =>
      intro st recs0 _
      simp
      rfl
  | cons x xs ih =>
      intro st recs0 hall
      have hx : keep f? x = false := hall x (by simp)
      have hstep := flattenStep_skip T f? (st, recs0) x hx
      have hcons : List.foldlM (flattenStep T f?) (st, recs0) (x :: xs)
          = flattenStep T f? (st, recs0) x >>= fun acc =>
              List.foldlM (flattenStep T f?) acc xs := rfl
      rw [hcons, hstep]
      show List.foldlM (flattenStep T f?) (st, recs0 ++ [x]) xs = _
      rw [ih (st) (recs0 ++ [x]) (fun y hy => hall y (by simp [hy]))]
      simp

/-- Once the first-record flag is set, no later record changes the
column name list. -/
theorem fold_colKeys (T : Nat) (f? : Option String) :
    ∀ (l : List ResultRecord) (st : FlatState) (recs0 : List ResultRecord)
      (st' : FlatState) (recs' : List ResultRecord),
      st.added_prompt_fill_fields = true →
      List.foldlM (flattenStep T f?) (st, recs0) l = Except.ok (st', recs') →
      colKeys st'.results = colKeys st.results := by
  intro l
  induction l with
  | nil =>
      intro st recs0 st' recs' _ h
      have h2 : Except.ok (st, recs0) = Except.ok (st', recs') := h
      rw [Except.ok.injEq, Prod.mk.injEq] at h2
      rw [← h2.1]
  | cons x xs ih =>
      intro st recs0 st' recs' hflag h
      have hcons : List.foldlM (flattenStep T f?) (st, recs0) (x :: xs)
          = flattenStep T f? (st, recs0) x >>= fun acc =>
              List.foldlM (flattenStep T f?) acc xs := rfl
      rw [hcons] at h
      obtain ⟨acc1, hstep, hrest⟩ := except_bind_ok _ _ _ h
      cases hk : keep f? x with
      | false =>
          rw [flattenStep_skip T f? (st, recs0) x hk] at hstep
          have hstep2 : (st, recs0 ++ [x]) = acc1 := by
            rw [Except.ok.injEq] at hstep
            exact hstep
          rw [← hstep2] at hrest
          exact ih st (recs0 ++ [x]) st' recs' hflag hrest
      | true =>
          unfold flattenStep at hstep
          rw [hk] at hstep
          obtain ⟨pr, hproc, hstep2⟩ := except_bind_ok _ _ _ hstep
          obtain ⟨st1, res1⟩ := pr
          have hstep3 : Except.ok (st1, recs0 ++ [res1]) = Except.ok acc1 := hstep2
          rw [Except.ok.injEq] at hstep3
          rw [← hstep3] at hrest
          obtain ⟨_, _, _, _, _, _, hadded, _, hsame, _⟩ :=
            processRecord_ok T st x st1 res1 hproc
          have := ih st1 (recs0 ++ [res1]) st' recs' hadded hrest
          rw [this, hsame hflag]

/-! Claim theorems. -/

/-- C1: for an archive whose records all carry `max_tokens == 0` and any
tail length T at least 1, a completed flattening yields, for every
retained record, a `tokens` cell equal to the last T entries of the
`logprobs.tokens` of the record joined with a dash in forward order, and
a `probability` cell equal to the exponential of the sum of the last T
entries of `logprobs.token_logprobs` (the cell `Cell.exp s` denotes
`math.exp s`, see `cell_exp_denotes`).  The fill keys are assumed to
avoid the four fixed column names, as the data model of the
specification prescribes. -/
theorem C1_roundtrip_tail_join_and_expsum (mega : List ResultRecord) (T : Nat)
    (f? : Option String) (df : Dict (List Cell)) (recs : List ResultRecord)
    (hT : 1 ≤ T)
    (hmt : ∀ r ∈ mega, r.model.max_tokens = 0)
    (hdis : ∀ r ∈ mega, valuesDisjoint r.input.prompt.values)
    (hok : process_mega_json_for_no_complete_prompt mega T f? = Except.ok (df, recs)) :
    dictGet df "tokens" = some ((mega.filter (fun r => keep f? r)).map
      (fun r => Cell.str (String.intercalate "-" (lastN T (logprobsOf r).tokens)))) ∧
    dictGet df "probability" = some ((mega.filter (fun r => keep f? r)).map
      (fun r => Cell.exp ((lastN T (logprobsOf r).token_logprobs).sum))) := by
  obtain ⟨hcomp, _, hcols⟩ := flatten_ok_master mega T f? df recs hok
  obtain ⟨_, _, hK, hP⟩ := hcols (fun r hr _ => hdis r hr)
  have hcell : ∀ r ∈ mega.filter (fun r => keep f? r),
      keptCells T r = (Cell.str (String.intercalate "-" (lastN T (logprobsOf r).tokens)),
        Cell.exp ((lastN T (logprobsOf r).token_logprobs).sum)) := by
    intro r hr
    obtain ⟨hrm, hkr⟩ := List.mem_filter.mp hr
    obtain ⟨cr, hcr⟩ := hcomp r hrm hkr
    obtain ⟨hecho, elp, help, htc⟩ := completionResult_ok T r cr hcr
    obtain ⟨c, cs, hc⟩ := computeEchoLogprobs_ok_choices r elp help
    have hfull := computeEchoLogprobs_max0 r c cs hc (hmt r hrm)
    rw [help, Except.ok.injEq] at hfull
    subst hfull
    obtain ⟨hlt, hll⟩ := tailCells_ok_lengths T _ cr htc
    rw [tailCells_ok T _ hlt hll, Except.ok.injEq] at htc
    have hkc : keptCells T r = cr := by
      unfold keptCells
      rw [hcr]
    have hlp : logprobsOf r = c.logprobs := by
      unfold logprobsOf
      rw [hc]
    rw [hkc, ← htc, hlp]
    rfl
  constructor
  · rw [hK]
    exact congrArg some (List.map_congr_left (fun r hr => by rw [hcell r hr]))
  · rw [hP]
    exact congrArg some (List.map_congr_left (fun r hr => by rw [hcell r hr]))

/-- Archive of one well-formed record used by several witnesses. -/
def lpW1 : Logprobs :=
  { tokens := ["a", "b"], token_logprobs := [-1, -2], text_offset := [0, 1] }

/-- Concrete record: echoing enabled, no generated continuation. -/
def recW1 : ResultRecord :=
  { input := { prompt := { index := 7, values := [] }, prompt_descriptor := "d",
               full_input := "ab" }
  , model := { engine := "eng", echo := true, max_tokens := 0 }
  , output := { choices := [{ logprobs := lpW1 }], echo_logprobs := none } }

/-- Expected flat table for the archive `[recW1]` with tail length 1. -/
def dfW1 : Dict (List Cell) :=
  [("index", [Cell.int 7]), ("engine", [Cell.str "eng"]),
   ("tokens", [Cell.str "b"]), ("probability", [Cell.exp (-2)])]

/-- Expected record list after flattening `[recW1]`. -/
def recsW1 : List ResultRecord := [setEchoLogprobs recW1 (EchoLogprobs.full lpW1)]

/-- Concrete instance of `C1_roundtrip_tail_join_and_expsum`: one record
with tokens `a`, `b` and logprobs -1, -2; tail length 1 gives the cell
`b` and the probability cell for exp(-2). -/
theorem C1_witness :
    (1 ≤ 1) ∧
    process_mega_json_for_no_complete_prompt [recW1] 1 none = Except.ok (dfW1, recsW1) ∧
    dictGet dfW1 "tokens" = some [Cell.str "b"] ∧
    dictGet dfW1 "probability" = some [Cell.exp (-2)] := by
  have hok : process_mega_json_for_no_complete_prompt [recW1] 1 none
      = Except.ok (dfW1, recsW1) := by
    simp +decide [process_mega_json_for_no_complete_prompt, flattenStep, processRecord, keep,
      dictAppend, dictGet, initFields, appendValues, computeEchoLogprobs, tailCells, tailLoop,
      tailStep, pyNegIndex, setEchoLogprobs, initResults, pdDataFrame, allSameLength,
      lpW1, recW1, dfW1, recsW1, List.foldlM, EchoLogprobs.tokens, EchoLogprobs.token_logprobs,
      List.range', except_ok_bind, except_error_bind, except_pure_eq_ok, String.intercalate,
      String.intercalate.go]
  have h := C1_roundtrip_tail_join_and_expsum [recW1] 1 none dfW1 recsW1
    (by decide) (by decide) (by decide) hok
  refine ⟨by decide, hok, h.1.trans ?_, h.2.trans ?_⟩
  · simp +decide [keep, recW1, lpW1, logprobsOf, lastN, String.intercalate,
      String.intercalate.go, dfW1]
  · simp +decide [keep, recW1, lpW1, logprobsOf, lastN, dfW1]

/-- C5: with the descriptor filter set to F, a completed flattening
produces one `index` entry per record whose `prompt_descriptor` equals F
in archive order, rows come only from such records, and every column of
the table has exactly that many entries (fill keys again assumed to
avoid the fixed column names). -/
theorem C5_descriptor_filter_rows (mega : List ResultRecord) (T : Nat) (F : String)
    (df : Dict (List Cell)) (recs : List ResultRecord)
    (hdis : ∀ r ∈ mega, valuesDisjoint r.input.prompt.values)
    (hok : process_mega_json_for_no_complete_prompt mega T (some F) = Except.ok (df, recs)) :
    dictGet df "index" = some ((mega.filter
        (fun r => r.input.prompt_descriptor == F)).map
        (fun r => Cell.int r.input.prompt.index)) ∧
    ∀ p ∈ df, p.2.length
        = (mega.filter (fun r => r.input.prompt_descriptor == F)).length := by
  obtain ⟨hcomp, _, hcols⟩ := flatten_ok_master mega T (some F) df recs hok
  obtain ⟨hI, _, _, _⟩ := hcols (fun r hr _ => hdis r hr)
  have hfeq : mega.filter (fun r => keep (some F) r)
      = mega.filter (fun r => r.input.prompt_descriptor == F) := rfl
  rw [hfeq] at hI
  refine ⟨hI, ?_⟩
  intro p hp
  obtain ⟨st, hfold, hdf, hall⟩ := flatten_ok_destruct mega T (some F) df recs hok
  have halldf : allSameLength df = true := by
    rw [hdf]
    exact hall
  obtain ⟨pI, hpI, hpIv⟩ := dictGet_mem df "index" _ hI
  have hlen := allSameLength_eq df halldf p pI hp hpI
  rw [hlen, hpIv]
  simp

/-- Concrete instance of `C5_descriptor_filter_rows`: the single record
matches the filter value `d`, so every column has one entry and the
index column lists exactly that record. -/
theorem C5_witness :
    process_mega_json_for_no_complete_prompt [recW1] 1 (some "d")
      = Except.ok (dfW1, recsW1) ∧
    dictGet dfW1 "index" = some [Cell.int 7] ∧
    ("probability", [Cell.exp (-2)]).2.length = 1 := by
  have hok : process_mega_json_for_no_complete_prompt [recW1] 1 (some "d")
      = Except.ok (dfW1, recsW1) := by
    simp +decide [process_mega_json_for_no_complete_prompt, flattenStep, processRecord, keep,
      dictAppend, dictGet, initFields, appendValues, computeEchoLogprobs, tailCells, tailLoop,
      tailStep, pyNegIndex, setEchoLogprobs, initResults, pdDataFrame, allSameLength,
      lpW1, recW1, dfW1, recsW1, List.foldlM, EchoLogprobs.tokens, EchoLogprobs.token_logprobs,
      List.range', except_ok_bind, except_error_bind, except_pure_eq_ok, String.intercalate,
      String.intercalate.go]
  have h := C5_descriptor_filter_rows [recW1] 1 "d" dfW1 recsW1 (by decide) hok
  refine ⟨hok, h.1.trans (by decide), ?_⟩
  exact (h.2 ("probability", [Cell.exp (-2)]) (by decide)).trans (by decide)

/-- C10: every index access of the tail-selection loop is in bounds
exactly when both (possibly truncated) sequences hold at least T
entries: with enough entries the loop returns the reversed tail and the
tail sum, with fewer it raises `IndexError`; and a completed flattening
forces every retained record to have sequences of length at least T, so
a too-short record aborts the whole run instead of yielding a table. -/
theorem C10_tail_bounds (T : Nat) :
    (∀ (tokens : List String) (lps : List ℚ), T ≤ tokens.length → T ≤ lps.length →
      tailLoop tokens lps T = Except.ok
        ((tokens.drop (tokens.length - T)).reverse, (lps.drop (lps.length - T)).sum)) ∧
    (∀ (tokens : List String) (lps : List ℚ), tokens.length < T ∨ lps.length < T →
      tailLoop tokens lps T = Except.error PyErr.indexError) ∧
    (∀ (mega : List ResultRecord) (f? : Option String) (df : Dict (List Cell))
        (recs : List ResultRecord),
      process_mega_json_for_no_complete_prompt mega T f? = Except.ok (df, recs) →
      ∀ r ∈ mega, keep f? r = true → ∀ elp, computeEchoLogprobs r = Except.ok elp →
        T ≤ elp.tokens.length ∧ T ≤ elp.token_logprobs.length) := by
  refine ⟨fun tokens lps ht hl => tailLoop_ok tokens lps T ht hl,
    fun tokens lps h => tailLoop_err tokens lps T h, ?_⟩
  intro mega f? df recs hok r hr hk elp help
  obtain ⟨hcomp, _, _⟩ := flatten_ok_master mega T f? df recs hok
  obtain ⟨cr, hcr⟩ := hcomp r hr hk
  obtain ⟨hecho, elp2, help2, htc⟩ := completionResult_ok T r cr hcr
  rw [help, Except.ok.injEq] at help2
  rw [← help2] at htc
  exact tailCells_ok_lengths T elp cr htc

/-- Concrete instance of `C10_tail_bounds`: with tail length 1 the loop
succeeds on singleton sequences, raises `IndexError` on empty ones, and
the completed run over `[recW1]` certifies its sequences are long
enough. -/
theorem C10_witness :
    tailLoop ["a"] [(-1 : ℚ)] 1 = Except.ok (["a"], -1) ∧
    tailLoop ([] : List String) ([] : List ℚ) 1 = Except.error PyErr.indexError ∧
    (1 ≤ (EchoLogprobs.full lpW1).tokens.length ∧
      1 ≤ (EchoLogprobs.full lpW1).token_logprobs.length) := by
  have h := C10_tail_bounds 1
  have hok : process_mega_json_for_no_complete_prompt [recW1] 1 none
      = Except.ok (dfW1, recsW1) := by
    simp +decide [process_mega_json_for_no_complete_prompt, flattenStep, processRecord, keep,
      dictAppend, dictGet, initFields, appendValues, computeEchoLogprobs, tailCells, tailLoop,
      tailStep, pyNegIndex, setEchoLogprobs, initResults, pdDataFrame, allSameLength,
      lpW1, recW1, dfW1, recsW1, List.foldlM, EchoLogprobs.tokens, EchoLogprobs.token_logprobs,
      List.range', except_ok_bind, except_error_bind, except_pure_eq_ok, String.intercalate,
      String.intercalate.go]
  refine ⟨?_, ?_, ?_⟩
  · refine (h.1 ["a"] [-1] (by decide) (by decide)).trans ?_
    simp
  · exact h.2.1 [] [] (Or.inl (by decide))
  · exact h.2.2 [recW1] none dfW1 recsW1 hok recW1 (by decide) (by decide)
      (EchoLogprobs.full lpW1) (by decide)

/-- C2: a record with a generated continuation (`max_tokens != 0`) whose
`text_offset` contains the exact character length of `full_input` at
position `slicer` yields the same echo logprobs, and therefore the same
completion cells for every tail length, as the otherwise identical
record whose `tokens` and `token_logprobs` sequences were pre-truncated
to the entries before that position: the salvage path is equivalent to
pre-truncation. -/
theorem C2_salvage_equiv_pretruncation (r : ResultRecord) (c : Choice) (cs : List Choice)
    (slicer : Nat) (hc : r.output.choices = c :: cs) (hmt : r.model.max_tokens ≠ 0)
    (hidx : c.logprobs.text_offset.findIdx?
      (fun x => x == (r.input.full_input.length : Int)) = some slicer) :
    computeEchoLogprobs (pretruncateRecord slicer r) = computeEchoLogprobs r ∧
    ∀ T, completionResult T (pretruncateRecord slicer r) = completionResult T r := by
  have hpre : (pretruncateRecord slicer r).output.choices
      = ({ c with logprobs := { c.logprobs with
            tokens := c.logprobs.tokens.take slicer,
            token_logprobs := c.logprobs.token_logprobs.take slicer } } : Choice) :: cs := by
    simp only [pretruncateRecord, hc]
  have hm : (pretruncateRecord slicer r).model = r.model := by
    simp only [pretruncateRecord, hc]
  have hmt2 : (pretruncateRecord slicer r).model.max_tokens ≠ 0 := by
    rw [hm]
    exact hmt
  have h1 := computeEchoLogprobs_salvage r c cs slicer hc hmt hidx
  have h2 := computeEchoLogprobs_salvage (pretruncateRecord slicer r) _ cs slicer hpre hmt2
    (by
      show c.logprobs.text_offset.findIdx?
        (fun x => x == ((pretruncateRecord slicer r).input.full_input.length : Int)) = some slicer
      have hi : (pretruncateRecord slicer r).input = r.input := by
        simp only [pretruncateRecord, hc]
      rw [hi]
      exact hidx)
  have heq : computeEchoLogprobs (pretruncateRecord slicer r) = computeEchoLogprobs r := by
    rw [h1, h2]
    simp [List.take_take]
  refine ⟨heq, ?_⟩
  intro T
  unfold completionResult
  rw [hm, heq]

/-- Concrete record with a mistaken generated continuation: the prompt
echo covers offsets 0 and 2 of the two tokens, and the length of the
full input (2) sits at position 1 of `text_offset`. -/
def lpW2 : Logprobs :=
  { tokens := ["ab", "c"], token_logprobs := [-1, -5], text_offset := [0, 2] }

/-- Record for the salvage-path witness. -/
def recW2 : ResultRecord :=
  { input := { prompt := { index := 1, values := [] }, prompt_descriptor := "d",
               full_input := "ab" }
  , model := { engine := "eng", echo := true, max_tokens := 16 }
  , output := { choices := [{ logprobs := lpW2 }], echo_logprobs := none } }

/-- Concrete instance of `C2_salvage_equiv_pretruncation` at the record
`recW2` with cutoff position 1. -/
theorem C2_witness :
    recW2.output.choices = [{ logprobs := lpW2 }] ∧
    recW2.model.max_tokens ≠ 0 ∧
    ({ logprobs := lpW2 } : Choice).logprobs.text_offset.findIdx?
      (fun x => x == (recW2.input.full_input.length : Int)) = some 1 ∧
    computeEchoLogprobs (pretruncateRecord 1 recW2) = computeEchoLogprobs recW2 ∧
    completionResult 1 (pretruncateRecord 1 recW2) = completionResult 1 recW2 := by
  have h := C2_salvage_equiv_pretruncation recW2 { logprobs := lpW2 } [] 1
    (by decide) (by decide) (by decide)
  exact ⟨by decide, by decide, by decide, h.1, h.2 1⟩

/-- C4 (amended): a retained record with `model.echo == false` makes the
whole flatten call fail with no output table; the per-record completion
computation of the record raises exactly the explicit usage error,
though when an earlier record already fails the overall error can
differ (see the counterexample). -/
theorem C4_echo_false_aborts (mega : List ResultRecord) (T : Nat) (f? : Option String)
    (r : ResultRecord) (hr : r ∈ mega) (hk : keep f? r = true)
    (hecho : r.model.echo = false) :
    (process_mega_json_for_no_complete_prompt mega T f?).isOk = false ∧
    completionResult T r = Except.error PyErr.exception := by
  have hcompr : completionResult T r = Except.error PyErr.exception := by
    unfold completionResult
    rw [hecho]
  refine ⟨?_, hcompr⟩
  cases hres : process_mega_json_for_no_complete_prompt mega T f? with
  | error e => rfl
  | ok out =>
      obtain ⟨df, recs⟩ := out
      obtain ⟨hcomp, _, _⟩ := flatten_ok_master mega T f? df recs hres
      obtain ⟨cc, hcc⟩ := hcomp r hr hk
      rw [hcompr] at hcc
      exact Except.noConfusion hcc

/-- Empty token trace. -/
def lpEmpty : Logprobs := { tokens := [], token_logprobs := [], text_offset := [] }

/-- Record whose tail loop fails before any echo check of a later
record: echoing on, but the token trace is empty. -/
def recC4a : ResultRecord :=
  { input := { prompt := { index := 1, values := [] }, prompt_descriptor := "d",
               full_input := "" }
  , model := { engine := "e", echo := true, max_tokens := 0 }
  , output := { choices := [{ logprobs := lpEmpty }], echo_logprobs := none } }

/-- Record produced without echoing. -/
def recC4b : ResultRecord :=
  { input := { prompt := { index := 2, values := [] }, prompt_descriptor := "d",
               full_input := "" }
  , model := { engine := "e", echo := false, max_tokens := 0 }
  , output := { choices := [{ logprobs := lpEmpty }], echo_logprobs := none } }

/-- C4 (counterexample to the claim as stated): this archive contains a
retained record with `echo == false`, yet the flatten call fails with an
`IndexError` from the record before it, not with the explicit usage
error the claim names. -/
theorem C4_counterexample :
    recC4b ∈ [recC4a, recC4b] ∧ keep none recC4b = true ∧
    recC4b.model.echo = false ∧
    process_mega_json_for_no_complete_prompt [recC4a, recC4b] 1 none
      = Except.error PyErr.indexError ∧
    process_mega_json_for_no_complete_prompt [recC4a, recC4b] 1 none
      ≠ Except.error PyErr.exception := by
  have heval : process_mega_json_for_no_complete_prompt [recC4a, recC4b] 1 none
      = Except.error PyErr.indexError := by
    simp +decide [process_mega_json_for_no_complete_prompt, flattenStep, processRecord, keep,
      dictAppend, dictGet, initFields, appendValues, computeEchoLogprobs, tailCells, tailLoop,
      tailStep, pyNegIndex, setEchoLogprobs, initResults, pdDataFrame, allSameLength,
      recC4a, recC4b, lpEmpty, List.foldlM, EchoLogprobs.tokens, EchoLogprobs.token_logprobs,
      List.range', except_ok_bind, except_error_bind, except_pure_eq_ok]
  refine ⟨by decide, by decide, by decide, heval, ?_⟩
  rw [heval]
  decide

/-- Concrete instance of `C4_echo_false_aborts`: the single-record
archive holding only the echo-free record fails, and the per-record
computation raises the usage error. -/
theorem C4_witness :
    recC4b ∈ [recC4b] ∧ keep none recC4b = true ∧ recC4b.model.echo = false ∧
    (process_mega_json_for_no_complete_prompt [recC4b] 1 none).isOk = false ∧
    completionResult 1 recC4b = Except.error PyErr.exception := by
  have h := C4_echo_false_aborts [recC4b] 1 none recC4b (by decide) (by decide) (by decide)
  exact ⟨by decide, by decide, by decide, h.1, h.2⟩

/-- C6 (amended): a retained record with `max_tokens != 0` whose
`text_offset` does not contain the exact character length of
`full_input` makes the whole flatten call fail with no output table; the
branch computation of the record raises exactly the value-not-found
error, though a record failing earlier (or the echo check of the record
itself) can surface a different error (see the counterexample). -/
theorem C6_offset_missing_aborts (mega : List ResultRecord) (T : Nat) (f? : Option String)
    (r : ResultRecord) (c : Choice) (cs : List Choice)
    (hr : r ∈ mega) (hk : keep f? r = true)
    (hc : r.output.choices = c :: cs) (hmt : r.model.max_tokens ≠ 0)
    (hidx : c.logprobs.text_offset.findIdx?
      (fun x => x == (r.input.full_input.length : Int)) = none) :
    (process_mega_json_for_no_complete_prompt mega T f?).isOk = false ∧
    computeEchoLogprobs r = Except.error PyErr.valueError := by
  have hce := computeEchoLogprobs_notfound r c cs hc hmt hidx
  refine ⟨?_, hce⟩
  cases hres : process_mega_json_for_no_complete_prompt mega T f? with
  | error e => rfl
  | ok out =>
      obtain ⟨df, recs⟩ := out
      obtain ⟨hcomp, _, _⟩ := flatten_ok_master mega T f? df recs hres
      obtain ⟨cc, hcc⟩ := hcomp r hr hk
      obtain ⟨hecho, elp, help, _⟩ := completionResult_ok T r cc hcc
      rw [hce] at help
      exact Except.noConfusion help

/-- Record with a generated continuation, a `text_offset` that misses
the input length, and echoing disabled. -/
def lpC6 : Logprobs := { tokens := ["x"], token_logprobs := [-1], text_offset := [0] }

/-- Record for the C6 statements. -/
def recC6 : ResultRecord :=
  { input := { prompt := { index := 3, values := [] }, prompt_descriptor := "d",
               full_input := "ab" }
  , model := { engine := "e", echo := false, max_tokens := 7 }
  , output := { choices := [{ logprobs := lpC6 }], echo_logprobs := none } }

/-- C6 (counterexample to the claim as stated): the retained record has
`max_tokens != 0` and an offset table missing the input length, yet the
flatten call fails with the echo usage error, which fires first, not
with the value-not-found error the claim names. -/
theorem C6_counterexample :
    recC6 ∈ [recC6] ∧ keep none recC6 = true ∧ recC6.model.max_tokens ≠ 0 ∧
    recC6.output.choices = [{ logprobs := lpC6 }] ∧
    ({ logprobs := lpC6 } : Choice).logprobs.text_offset.findIdx?
      (fun x => x == (recC6.input.full_input.length : Int)) = none ∧
    process_mega_json_for_no_complete_prompt [recC6] 1 none
      = Except.error PyErr.exception ∧
    process_mega_json_for_no_complete_prompt [recC6] 1 none
      ≠ Except.error PyErr.valueError := by
  have heval : process_mega_json_for_no_complete_prompt [recC6] 1 none
      = Except.error PyErr.exception := by
    simp +decide [process_mega_json_for_no_complete_prompt, flattenStep, processRecord, keep,
      dictAppend, dictGet, initFields, appendValues, computeEchoLogprobs, tailCells, tailLoop,
      tailStep, pyNegIndex, setEchoLogprobs, initResults, pdDataFrame, allSameLength,
      recC6, lpC6, List.foldlM, EchoLogprobs.tokens, EchoLogprobs.token_logprobs,
      List.range', except_ok_bind, except_error_bind, except_pure_eq_ok]
  refine ⟨by decide, by decide, by decide, by decide, by decide, heval, ?_⟩
  rw [heval]
  decide

/-- Concrete instance of `C6_offset_missing_aborts` at the same record:
the run aborts and the branch computation raises the value-not-found
error. -/
theorem C6_witness :
    recC6 ∈ [recC6] ∧ keep none recC6 = true ∧ recC6.model.max_tokens ≠ 0 ∧
    (process_mega_json_for_no_complete_prompt [recC6] 1 none).isOk = false ∧
    computeEchoLogprobs recC6 = Except.error PyErr.valueError := by
  have h := C6_offset_missing_aborts [recC6] 1 none recC6 { logprobs := lpC6 } []
    (by decide) (by decide) (by decide) (by decide) (by decide)
  exact ⟨by decide, by decide, by decide, h.1, h.2⟩

/-- C8: when a flatten call completes, the column names of the table are
exactly the four fixed columns followed by the fill keys of the first
retained record, in order: the column set is fixed once that record is
processed, and no later record adds or removes a column.  The first
retained record is assumed well formed (fill keys without duplicates and
avoiding the fixed names), as the data model of the specification
prescribes. -/
theorem C8_first_record_fixes_columns (mega : List ResultRecord) (T : Nat)
    (f? : Option String) (df : Dict (List Cell)) (recs : List ResultRecord)
    (r0 : ResultRecord) (rest0 : List ResultRecord)
    (hsplit : mega.filter (fun r => keep f? r) = r0 :: rest0)
    (hwf : WFValues r0.input.prompt.values)
    (hok : process_mega_json_for_no_complete_prompt mega T f? = Except.ok (df, recs)) :
    colKeys df = reservedKeys ++ r0.input.prompt.values.map Prod.fst := by
  obtain ⟨st, hfold, hdf, _⟩ := flatten_ok_destruct mega T f? df recs hok
  obtain ⟨l1, l2, hmega, hpre, hkr0, _⟩ := List.filter_eq_cons_iff.mp hsplit
  subst hmega
  have hpre2 : ∀ x ∈ l1, keep f? x = false := by
    intro x hx
    cases hkx : keep f? x
    · rfl
    · exact absurd hkx (hpre x hx)
  rw [List.foldlM_append] at hfold
  rw [fold_skips T f? l1 ⟨initResults, false⟩ [] hpre2] at hfold
  have hfold3 : flattenStep T f? ((⟨initResults, false⟩ : FlatState), [] ++ l1) r0
      >>= (fun acc => List.foldlM (flattenStep T f?) acc l2) = Except.ok (st, recs) := hfold
  obtain ⟨acc1, hstep, hrest⟩ := except_bind_ok _ _ _ hfold3
  unfold flattenStep at hstep
  rw [show keep f? r0 = true from hkr0] at hstep
  obtain ⟨pr, hproc, hstep2⟩ := except_bind_ok _ _ _ hstep
  obtain ⟨st1, res1⟩ := pr
  obtain ⟨_, _, _, _, _, _, hadded, _, _, hcols0⟩ := processRecord_ok T _ r0 st1 res1 hproc
  have hfresh : ∀ k ∈ r0.input.prompt.values.map Prod.fst,
      k ∉ colKeys ((⟨initResults, false⟩ : FlatState)).results := by
    intro k hk hkin
    obtain ⟨kv, hkv, hkfst⟩ := List.mem_map.mp hk
    apply hwf.1 kv hkv
    rw [hkfst]
    simpa [colKeys, initResults, reservedKeys] using hkin
  have hcols1 := hcols0 rfl hwf hfresh
  have hstep3 : Except.ok (st1, ([] ++ l1) ++ [res1]) = Except.ok acc1 := hstep2
  rw [Except.ok.injEq] at hstep3
  rw [← hstep3] at hrest
  have hkeep := fold_colKeys T f? l2 st1 _ st recs hadded hrest
  rw [hdf, hkeep, hcols1]
  rfl

/-- Record with one fill key, used for the column-set witness. -/
def recW8 : ResultRecord :=
  { input := { prompt := { index := 9, values := [("fill", Cell.str "x")] },
               prompt_descriptor := "d", full_input := "ab" }
  , model := { engine := "eng", echo := true, max_tokens := 0 }
  , output := { choices := [{ logprobs := lpW1 }], echo_logprobs := none } }

/-- Expected table for the archive `[recW8]` with tail length 1. -/
def dfW8 : Dict (List Cell) :=
  [("index", [Cell.int 9]), ("engine", [Cell.str "eng"]),
   ("tokens", [Cell.str "b"]), ("probability", [Cell.exp (-2)]),
   ("fill", [Cell.str "x"])]

/-- Expected record list after flattening `[recW8]`. -/
def recsW8 : List ResultRecord := [setEchoLogprobs recW8 (EchoLogprobs.full lpW1)]

/-- Concrete instance of `C8_first_record_fixes_columns`: the single
record carries the fill key `fill`, and the finished table has exactly
the four fixed columns followed by `fill`. -/
theorem C8_witness :
    ([recW8].filter (fun r => keep none r) = [recW8]) ∧
    WFValues recW8.input.prompt.values ∧
    process_mega_json_for_no_complete_prompt [recW8] 1 none = Except.ok (dfW8, recsW8) ∧
    colKeys dfW8 = reservedKeys ++ ["fill"] := by
  have hok : process_mega_json_for_no_complete_prompt [recW8] 1 none
      = Except.ok (dfW8, recsW8) := by
    simp +decide [process_mega_json_for_no_complete_prompt, flattenStep, processRecord, keep,
      dictAppend, dictGet, dictSet, initFields, appendValues, computeEchoLogprobs, tailCells,
      tailLoop, tailStep, pyNegIndex, setEchoLogprobs, initResults, pdDataFrame, allSameLength,
      lpW1, recW8, dfW8, recsW8, List.foldlM, EchoLogprobs.tokens, EchoLogprobs.token_logprobs,
      List.range', except_ok_bind, except_error_bind, except_pure_eq_ok, String.intercalate,
      String.intercalate.go]
  have h := C8_first_record_fixes_columns [recW8] 1 none dfW8 recsW8 recW8 []
    (by decide) (by decide) hok
  exact ⟨by decide, by decide, hok, h.trans (by decide)⟩

/-- Post-run record list of a flatten call (`none` when the call
fails): the observable the frame claim C9 speaks about. -/
def flattenedRecords (mega : List ResultRecord) (T : Nat) (f? : Option String) :
    Option (List ResultRecord) :=
  match process_mega_json_for_no_complete_prompt mega T f? with
  | Except.ok out => some out.2
  | Except.error _ => none

/-- C9 (counterexample to the claim as stated): the claim says a
completed flatten leaves every record exactly as deserialized; on this
archive the call completes, yet the record afterwards differs from the
input record, because line 108 adds the `echo_logprobs` entry to the
record in place. -/
theorem C9_counterexample :
    flattenedRecords [recW1] 1 none ≠ none ∧
    flattenedRecords [recW1] 1 none ≠ some [recW1] := by
  have hok : process_mega_json_for_no_complete_prompt [recW1] 1 none
      = Except.ok (dfW1, recsW1) := by
    simp +decide [process_mega_json_for_no_complete_prompt, flattenStep, processRecord, keep,
      dictAppend, dictGet, initFields, appendValues, computeEchoLogprobs, tailCells, tailLoop,
      tailStep, pyNegIndex, setEchoLogprobs, initResults, pdDataFrame, allSameLength,
      lpW1, recW1, dfW1, recsW1, List.foldlM, EchoLogprobs.tokens, EchoLogprobs.token_logprobs,
      List.range', except_ok_bind, except_error_bind, except_pure_eq_ok, String.intercalate,
      String.intercalate.go]
  have heval : flattenedRecords [recW1] 1 none = some recsW1 := by
    unfold flattenedRecords
    rw [hok]
  rw [heval]
  exact ⟨by decide, by decide⟩

/-- C9 (amended): after a completed flatten call the record list equals
the input list in which every retained record has had exactly its
`output.echo_logprobs` entry set to the computed echo logprobs; all
other fields of every record, and skipped records entirely, are
unchanged. -/
theorem C9_mutation_only_echo_logprobs (mega : List ResultRecord) (T : Nat)
    (f? : Option String) (df : Dict (List Cell)) (recs : List ResultRecord)
    (hok : process_mega_json_for_no_complete_prompt mega T f? = Except.ok (df, recs)) :
    recs = mega.map (postRecord f?) ∧
    (∀ r, scrubEchoLogprobs (postRecord f? r) = scrubEchoLogprobs r) := by
  obtain ⟨_, hrecs, _⟩ := flatten_ok_master mega T f? df recs hok
  refine ⟨hrecs, ?_⟩
  intro r
  unfold postRecord
  cases keep f? r
  · rfl
  · cases computeEchoLogprobs r
    · rfl
    · rfl

/-- Concrete instance of `C9_mutation_only_echo_logprobs` on the
one-record archive. -/
theorem C9_witness :
    process_mega_json_for_no_complete_prompt [recW1] 1 none = Except.ok (dfW1, recsW1) ∧
    recsW1 = [recW1].map (postRecord none) ∧
    scrubEchoLogprobs (postRecord none recW1) = scrubEchoLogprobs recW1 := by
  have hok : process_mega_json_for_no_complete_prompt [recW1] 1 none
      = Except.ok (dfW1, recsW1) := by
    simp +decide [process_mega_json_for_no_complete_prompt, flattenStep, processRecord, keep,
      dictAppend, dictGet, initFields, appendValues, computeEchoLogprobs, tailCells, tailLoop,
      tailStep, pyNegIndex, setEchoLogprobs, initResults, pdDataFrame, allSameLength,
      lpW1, recW1, dfW1, recsW1, List.foldlM, EchoLogprobs.tokens, EchoLogprobs.token_logprobs,
      List.range', except_ok_bind, except_error_bind, except_pure_eq_ok, String.intercalate,
      String.intercalate.go]
  have h := C9_mutation_only_echo_logprobs [recW1] 1 none dfW1 recsW1 hok
  exact ⟨hok, h.1, h.2 recW1⟩

end ProcessResults
